import Mathlib

/-!
Verification development for the release-engineering scripts
`scripts/bump-version.py` and `scripts/generate-release-notes.py`.

Commit subject lines are modelled as `List Char`.  Both scripts obtain
subjects from `git log --pretty=%s` (or `%H|%s`), so a subject never
contains a newline; consequently the `$` anchor and the `.`/`\s`
newline subtleties of the Python regexes are vacuous and the regexes
are modelled by maximal-munch scanners, which agree with Python's
backtracking semantics on these patterns (every repeated class is
followed by a literal excluded from the class).  Uppercasing and
lowercasing are modelled on the ASCII range, matching `str.upper` /
`str.lower` there.
-/

/-- The four bump kinds of `BumpType` in bump-version.py. -/
inductive BumpType where
  | major
  | minor
  | patch
  | none
deriving DecidableEq

/-- Severity order used by the spec: major > minor > patch > none. -/
def bumpSeverity : BumpType → Nat
  | BumpType.major => 3
  | BumpType.minor => 2
  | BumpType.patch => 1
  | BumpType.none => 0

/-- `startsWithL n h` holds when `n` is an initial segment of `h`. -/
def startsWithL : List Char → List Char → Bool
  | [], _ => true
  | _ :: _, [] => false
  | n :: ns, h :: hs => n = h && startsWithL ns hs

/-- Python's `needle in hay`: contiguous-substring containment. -/
def containsSub (needle : List Char) : List Char → Bool
  | [] => startsWithL needle []
  | c :: t => startsWithL needle (c :: t) || containsSub needle t

/-- The breaking-bang regex of bump-version.py line 82:
`re.match(r'^[a-zA-Z]+(\([^)]*\))?!:', message)` as a Boolean. -/
def matchBang (l : List Char) : Bool :=
  if (l.takeWhile Char.isAlpha).isEmpty then false
  else
    match l.dropWhile Char.isAlpha with
    | [] => false
    | c :: r2 =>
      if c = '(' then
        match r2.dropWhile (fun x => x != ')') with
        | c2 :: c3 :: c4 :: _ => if c2 = ')' ∧ c3 = '!' ∧ c4 = ':' then true else false
        | _ => false
      else if c = '!' then
        match r2 with
        | c2 :: _ => if c2 = ':' then true else false
        | [] => false
      else false

/-- The conventional-header regex of bump-version.py line 86:
`re.match(r'^([a-zA-Z]+)(\([^)]*\))?:', message)`, returning group 1. -/
def matchHeader (l : List Char) : Option (List Char) :=
  if (l.takeWhile Char.isAlpha).isEmpty then none
  else
    match l.dropWhile Char.isAlpha with
    | [] => none
    | c :: r2 =>
      if c = '(' then
        match r2.dropWhile (fun x => x != ')') with
        | c2 :: c3 :: _ =>
          if c2 = ')' ∧ c3 = ':' then some (l.takeWhile Char.isAlpha) else none
        | _ => none
      else if c = ':' then some (l.takeWhile Char.isAlpha)
      else none

/-- The patch-level commit types listed in bump-version.py line 95. -/
def patchTypes : List (List Char) :=
  ["fix".data, "perf".data, "docs".data, "style".data, "refactor".data,
   "test".data, "chore".data, "ci".data, "build".data]

/-- `CommitAnalyzer.analyze_commit_message` (bump-version.py lines 77-99). -/
def analyze_commit_message (message : List Char) : BumpType :=
  if containsSub ("BREAKING CHANGE".data) (message.map Char.toUpper)
      || containsSub ("BREAKING-CHANGE".data) (message.map Char.toUpper)
      || matchBang message then
    BumpType.major
  else
    match matchHeader message with
    | some a =>
      if a.map Char.toLower = "feat".data then BumpType.minor
      else if a.map Char.toLower ∈ patchTypes then BumpType.patch
      else BumpType.patch
    | none => BumpType.patch

/-- The loop body of `determine_bump_type` (bump-version.py lines 113-118):
update the running maximum with one commit's bump kind. -/
def bumpStep (maxBump b : BumpType) : BumpType :=
  if b = BumpType.major then BumpType.major
  else if b = BumpType.minor ∧ maxBump ≠ BumpType.major then BumpType.minor
  else if b = BumpType.patch ∧ maxBump = BumpType.none then BumpType.patch
  else maxBump

/-- `CommitAnalyzer.determine_bump_type` (bump-version.py lines 101-120),
with the commit list passed explicitly in place of `self.get_commits()`. -/
def determine_bump_type (commits : List (List Char)) : BumpType :=
  if commits.isEmpty then BumpType.none
  else commits.foldl (fun m c => bumpStep m (analyze_commit_message c)) BumpType.none

/-!
Embedding of generate-release-notes.py.
-/

/-- The ASCII characters matched by Python's `\s` in the notes regex. -/
def isPySpace (c : Char) : Bool :=
  c = ' ' || c = '\t' || c = '\n' || c = '\r' || c = '\x0b' || c = '\x0c'

/-- The header regex of generate-release-notes.py line 59:
`^([a-zA-Z]+)(\([^)]*\))?(!)?:\s*(.*)$`, returning
(group 1, group 2 contents when the scope group matched, whether
group 3 matched, group 4).  Subjects are single lines, so `\s*` takes
the maximal whitespace run and group 4 is the remainder. -/
def notesMatch (l : List Char) :
    Option (List Char × Option (List Char) × Bool × List Char) :=
  if (l.takeWhile Char.isAlpha).isEmpty then none
  else
    match l.dropWhile Char.isAlpha with
    | [] => none
    | c :: r2 =>
      if c = '(' then
        match r2.dropWhile (fun x => x != ')') with
        | c2 :: rest2 =>
          if c2 = ')' then
            match rest2 with
            | c3 :: rest3 =>
              if c3 = ':' then
                some (l.takeWhile Char.isAlpha,
                  some (r2.takeWhile (fun x => x != ')')), false,
                  rest3.dropWhile isPySpace)
              else if c3 = '!' then
                match rest3 with
                | c4 :: rest4 =>
                  if c4 = ':' then
                    some (l.takeWhile Char.isAlpha,
                      some (r2.takeWhile (fun x => x != ')')), true,
                      rest4.dropWhile isPySpace)
                  else none
                | [] => none
              else none
            | [] => none
          else none
        | [] => none
      else if c = ':' then
        some (l.takeWhile Char.isAlpha, none, false, r2.dropWhile isPySpace)
      else if c = '!' then
        match r2 with
        | c2 :: rest2 =>
          if c2 = ':' then
            some (l.takeWhile Char.isAlpha, none, true, rest2.dropWhile isPySpace)
          else none
        | [] => none
      else none

/-- `ReleaseNotesGenerator.parse_conventional_commit` (lines 56-75):
returns (commit_type, formatted message, breaking flag).  On a match
the scope display is the scope contents followed by ": "; on no match
the commit is typed "other" with the raw message as description. -/
def parse_conventional_commit (message : List Char) :
    List Char × List Char × Bool :=
  match notesMatch message with
  | some (ty, sc, bg, desc) =>
    let scopeDisplay : List Char :=
      match sc with
      | none => []
      | some inner => inner ++ ':' :: ' ' :: []
    (ty, scopeDisplay ++ desc, bg)
  | none => ("other".data, message, false)

/-- The mutable fields of a `ReleaseNotesGenerator` instance:
`self.commits`, `self.categorized_commits` (an insertion-ordered dict,
modelled as an association list) and `self.breaking_changes`. -/
structure GenState where
  commits : List (String × List Char)
  categorized : List (List Char × List (List Char))
  breaking : List (List Char)
deriving DecidableEq

/-- The state set up by `ReleaseNotesGenerator.__init__` (lines 33-38). -/
def initState : GenState := ⟨[], [], []⟩

/-- Append `v` to the bucket keyed `k`, creating the bucket at the end
when absent — the effect of lines 89-91 on the categorized dict. -/
def addToBucket (d : List (List Char × List (List Char))) (k v : List Char) :
    List (List Char × List (List Char)) :=
  match d with
  | [] => [(k, [v])]
  | (k2, vs) :: t =>
    if k2 = k then (k2, vs ++ [v]) :: t else (k2, vs) :: addToBucket t k v

/-- Dict lookup on the association list (empty list when the key is absent). -/
def lookupList (d : List (List Char × List (List Char))) (k : List Char) :
    List (List Char) :=
  match d with
  | [] => []
  | (k2, vs) :: t => if k2 = k then vs else lookupList t k

/-- One iteration of the loop in `categorize_commits` (lines 81-91):
parse the subject, append the formatted message to the breaking list
when the bang flag is set or the raw subject contains the literal
`BREAKING CHANGE`, and append it to its type's bucket. -/
def processCommit (st : GenState) (c : String × List Char) : GenState :=
  let r := parse_conventional_commit c.2
  let brk :=
    if r.2.2 || containsSub ("BREAKING CHANGE".data) c.2 then
      st.breaking ++ [r.2.1]
    else st.breaking
  { st with categorized := addToBucket st.categorized r.1 r.2.1, breaking := brk }

/-- `ReleaseNotesGenerator.categorize_commits` (lines 77-91): reassigns
`self.commits` to the freshly retrieved list, then runs the loop.  The
categorized dict and breaking list are NOT reset. -/
def categorize_commits (commits : List (String × List Char)) (st : GenState) :
    GenState :=
  commits.foldl processCommit { st with commits := commits }

/-- The state effect of `generate_markdown` (line 95): it begins by
calling `categorize_commits`; the rest of the method only reads the
state to build the markdown text. -/
def generate_markdown_state (commits : List (String × List Char))
    (st : GenState) : GenState :=
  categorize_commits commits st

/-- State after `n` calls of `generate_markdown` on one generator whose
`get_commits` always returns the same list. -/
def iterMarkdown (commits : List (String × List Char)) : Nat → GenState
  | 0 => initState
  | n + 1 => generate_markdown_state commits (iterMarkdown commits n)

/-- Total number of entries across all buckets. -/
def bucketSizes (d : List (List Char × List (List Char))) : Nat :=
  (d.map (fun kv => kv.2.length)).sum

/-!
Embedding of `SemanticVersion` (bump-version.py lines 26-58).
-/

/-- The structured value extracted by `SemanticVersion.__init__`. -/
structure SemanticVersion where
  major : Nat
  minor : Nat
  patch : Nat
  prerelease : Option String
deriving DecidableEq

/-- The ASCII digit character for `d < 10`. -/
def digitChar (d : Nat) : Char := Char.ofNat (48 + d)

/-- Decimal digit string of a natural number (Python `str`/f-string
formatting of a non-negative int), fuel-structured so it computes. -/
def renderNatAux : Nat → Nat → List Char
  | 0, _ => []
  | fuel + 1, n =>
    if n < 10 then [digitChar n]
    else renderNatAux fuel (n / 10) ++ [digitChar (n % 10)]

/-- Decimal rendering of a natural number. -/
def renderNat (n : Nat) : List Char := renderNatAux (n + 1) n

/-- Python `int` on a digit string. -/
def natOfDigits (l : List Char) : Nat :=
  l.foldl (fun a c => 10 * a + (c.toNat - 48)) 0

/-- The character class `[a-zA-Z0-9.-]` of the prerelease group. -/
def isPreChar (c : Char) : Bool :=
  c.isAlpha || c.isDigit || c = '.' || c = '-'

/-- One `(\d+)` group: the maximal digit run, required nonempty,
converted by `int`, together with the rest of the input. -/
def parseNatPart (l : List Char) : Option (Nat × List Char) :=
  let d := l.takeWhile Char.isDigit
  if d.isEmpty then none
  else some (natOfDigits d, l.dropWhile Char.isDigit)

/-- The version regex of `SemanticVersion.__init__` (line 31):
`^(\d+)\.(\d+)\.(\d+)(?:-([a-zA-Z0-9.-]+))?$`.  Returns `none` where
the Python constructor raises `ValueError`. -/
def parseVersion (l : List Char) : Option SemanticVersion :=
  match parseNatPart l with
  | some (ma, '.' :: l2) =>
    match parseNatPart l2 with
    | some (mi, '.' :: l3) =>
      match parseNatPart l3 with
      | some (pa, []) => some ⟨ma, mi, pa, none⟩
      | some (pa, '-' :: pre) =>
        if !pre.isEmpty && pre.all isPreChar then
          some ⟨ma, mi, pa, some (String.mk pre)⟩
        else none
      | _ => none
    | _ => none
  | _ => none

/-- `SemanticVersion` construction from a string. -/
def parseVersionString (s : String) : Option SemanticVersion :=
  parseVersion s.data

/-- `SemanticVersion.__str__` (lines 51-53), at the character level:
`"{major}.{minor}.{patch}"` with `-{prerelease}` appended when a
prerelease is present. -/
def renderVersionChars (v : SemanticVersion) : List Char :=
  renderNat v.major ++ ('.' :: (renderNat v.minor ++ ('.' :: (renderNat v.patch ++
    (match v.prerelease with
     | none => []
     | some p => '-' :: p.data)))))

/-- `str(SemanticVersion)`. -/
def versionToString (v : SemanticVersion) : String :=
  String.mk (renderVersionChars v)

/-- A prerelease value the Python object can actually hold: absent, or
a nonempty string over the prerelease character class (group 4 of the
version regex is `[a-zA-Z0-9.-]+`). -/
def prereleaseWF : Option String → Bool
  | none => true
  | some p => !p.data.isEmpty && p.data.all isPreChar

/-- `SemanticVersion.bump` (lines 40-49): each arm formats a version
string and re-parses it through the constructor. -/
def bumpVersion (v : SemanticVersion) : BumpType → Option SemanticVersion
  | BumpType.major =>
    parseVersion (renderNat (v.major + 1) ++ '.' :: '0' :: '.' :: '0' :: [])
  | BumpType.minor =>
    parseVersion (renderNat v.major ++ ('.' :: (renderNat (v.minor + 1) ++ ('.' :: '0' :: []))))
  | BumpType.patch =>
    parseVersion (renderNat v.major ++ ('.' :: (renderNat v.minor ++ ('.' :: renderNat (v.patch + 1)))))
  | BumpType.none => parseVersion (renderVersionChars v)

example : parseVersionString "1.2.3-alpha.1" = some ⟨1, 2, 3, some "alpha.1"⟩ := by decide
example : parseVersionString "01.2.3" = some ⟨1, 2, 3, none⟩ := by decide
example : parseVersionString "1.2" = none := by decide
example : parseVersionString "1.2.3-" = none := by decide
example : parseVersionString "1.2.3.4" = none := by decide
example : versionToString ⟨1, 2, 3, some "rc.1"⟩ = "1.2.3-rc.1" := by decide
example : bumpVersion ⟨1, 2, 3, some "rc.1"⟩ BumpType.major = some ⟨2, 0, 0, none⟩ := by decide
example : bumpVersion ⟨1, 2, 3, some "rc.1"⟩ BumpType.none = some ⟨1, 2, 3, some "rc.1"⟩ := by decide

/-!
Helper lemmas: decimal rendering round-trips through digit parsing.
-/

theorem digitChar_toNat (d : Nat) (h : d < 10) : (digitChar d).toNat = 48 + d := by
  interval_cases d <;> decide

theorem digitChar_isDigit (d : Nat) (h : d < 10) : (digitChar d).isDigit = true := by
  interval_cases d <;> decide

theorem natOfDigits_append_digit (A : List Char) (c : Char) :
    natOfDigits (A ++ [c]) = 10 * natOfDigits A + (c.toNat - 48) := by
  simp [natOfDigits, List.foldl_append]

theorem renderNatAux_spec :
    ∀ fuel n, n < fuel →
      (∀ c ∈ renderNatAux fuel n, c.isDigit = true) ∧
        renderNatAux fuel n ≠ [] ∧ natOfDigits (renderNatAux fuel n) = n := by
  intro fuel
  induction fuel with
  | zero => intro n h; exact absurd h (Nat.not_lt_zero n)
  | succ f ih =>
    intro n h
    by_cases h10 : n < 10
    · refine ⟨?_, ?_, ?_⟩
      · intro c hc
        simp only [renderNatAux, if_pos h10, List.mem_singleton] at hc
        subst hc
        exact digitChar_isDigit n h10
      · simp [renderNatAux, if_pos h10]
      · simp only [renderNatAux, if_pos h10]
        simp [natOfDigits, digitChar_toNat n h10]
    · have hdlt : n / 10 < f := by omega
      obtain ⟨ihd, ihne, ihval⟩ := ih (n / 10) hdlt
      simp only [renderNatAux, if_neg h10]
      refine ⟨?_, by simp, ?_⟩
      · intro c hc
        rcases List.mem_append.mp hc with hc | hc
        · exact ihd c hc
        · rw [List.mem_singleton] at hc
          subst hc
          exact digitChar_isDigit _ (Nat.mod_lt n (by omega))
      · rw [natOfDigits_append_digit, ihval,
          digitChar_toNat _ (Nat.mod_lt n (by omega))]
        omega

theorem renderNat_digits (n : Nat) : ∀ c ∈ renderNat n, c.isDigit = true :=
  (renderNatAux_spec (n + 1) n (Nat.lt_succ_self n)).1

theorem renderNat_ne_nil (n : Nat) : renderNat n ≠ [] :=
  (renderNatAux_spec (n + 1) n (Nat.lt_succ_self n)).2.1

theorem natOfDigits_renderNat (n : Nat) : natOfDigits (renderNat n) = n :=
  (renderNatAux_spec (n + 1) n (Nat.lt_succ_self n)).2.2

theorem takeWhile_append_exact (p : Char → Bool) :
    ∀ (A r : List Char), (∀ c ∈ A, p c = true) →
      (∀ c r2, r = c :: r2 → p c = false) →
      (A ++ r).takeWhile p = A ∧ (A ++ r).dropWhile p = r := by
  intro A
  induction A with
  | nil =>
    intro r _ hr
    cases r with
    | nil => exact ⟨rfl, rfl⟩
    | cons c t =>
      simp [List.takeWhile_cons, List.dropWhile_cons, hr c t rfl]
  | cons a A ih =>
    intro r hA hr
    have ha : p a = true := hA a (List.mem_cons_self a A)
    have hAr := ih r (fun c hc => hA c (List.mem_cons_of_mem a hc)) hr
    simp [List.takeWhile_cons, List.dropWhile_cons, ha, hAr.1, hAr.2]

theorem parseNatPart_render (n : Nat) (r : List Char)
    (hr : ∀ c r2, r = c :: r2 → c.isDigit = false) :
    parseNatPart (renderNat n ++ r) = some (n, r) := by
  obtain ⟨ht, hd⟩ :=
    takeWhile_append_exact Char.isDigit (renderNat n) r (renderNat_digits n) hr
  have hne : (renderNat n).isEmpty = false := by
    cases hrn : renderNat n with
    | nil => exact absurd hrn (renderNat_ne_nil n)
    | cons a t => rfl
  simp [parseNatPart, ht, hd, hne, natOfDigits_renderNat n]

theorem parseVersion_render (v : SemanticVersion)
    (h : prereleaseWF v.prerelease = true) :
    parseVersion (renderVersionChars v) = some v := by
  obtain ⟨ma, mi, pa, pre⟩ := v
  cases pre with
  | none =>
    have h1 := parseNatPart_render ma ('.' :: (renderNat mi ++ '.' :: (renderNat pa ++ [])))
      (by intro c r2 hh; cases hh; decide)
    have h2 := parseNatPart_render mi ('.' :: (renderNat pa ++ []))
      (by intro c r2 hh; cases hh; decide)
    have h3 := parseNatPart_render pa []
      (by intro c r2 hh; exact List.noConfusion hh)
    have hrv : renderVersionChars ⟨ma, mi, pa, none⟩
        = renderNat ma ++ '.' :: (renderNat mi ++ '.' :: (renderNat pa ++ [])) := rfl
    rw [hrv]
    simp only [parseVersion, h1, h2, h3]
  | some p =>
    obtain ⟨pd⟩ := p
    simp only [prereleaseWF] at h
    have h1 := parseNatPart_render ma ('.' :: (renderNat mi ++ '.' :: (renderNat pa ++ '-' :: pd)))
      (by intro c r2 hh; cases hh; decide)
    have h2 := parseNatPart_render mi ('.' :: (renderNat pa ++ '-' :: pd))
      (by intro c r2 hh; cases hh; decide)
    have h3 := parseNatPart_render pa ('-' :: pd)
      (by intro c r2 hh; cases hh; decide)
    have hrv : renderVersionChars ⟨ma, mi, pa, some (String.mk pd)⟩
        = renderNat ma ++ '.' :: (renderNat mi ++ '.' :: (renderNat pa ++ '-' :: pd)) := rfl
    rw [hrv]
    simp only [parseVersion, h1, h2, h3, h, if_true]

theorem parseVersion_wf (l : List Char) (v : SemanticVersion)
    (h : parseVersion l = some v) : prereleaseWF v.prerelease = true := by
  unfold parseVersion at h
  split at h <;> try exact Option.noConfusion h
  split at h <;> try exact Option.noConfusion h
  split at h <;> try exact Option.noConfusion h
  · cases h; rfl
  · rename_i hcond
    split at h
    · cases h
      rename_i hc
      simpa [prereleaseWF] using hc
    · exact Option.noConfusion h

/-!
Helper lemmas for the aggregator.
-/

theorem bumpStep_comm (a b : BumpType) : bumpStep a b = bumpStep b a := by
  cases a <;> cases b <;> rfl

theorem bumpStep_assoc (a b c : BumpType) :
    bumpStep (bumpStep a b) c = bumpStep a (bumpStep b c) := by
  cases a <;> cases b <;> cases c <;> rfl

theorem bumpStep_left_comm (b x y : BumpType) :
    bumpStep (bumpStep b x) y = bumpStep (bumpStep b y) x := by
  cases b <;> cases x <;> cases y <;> rfl

theorem bumpStep_self (b x : BumpType) :
    bumpStep (bumpStep b x) x = bumpStep b x := by
  cases b <;> cases x <;> rfl

theorem foldl_bumpStep_perm {l l2 : List (List Char)} (h : l.Perm l2) :
    ∀ b, l.foldl (fun m c => bumpStep m (analyze_commit_message c)) b
       = l2.foldl (fun m c => bumpStep m (analyze_commit_message c)) b := by
  induction h with
  | nil => intro b; rfl
  | cons x _ ih =>
    intro b
    simp only [List.foldl_cons]
    exact ih _
  | swap x y l =>
    intro b
    simp only [List.foldl_cons]
    rw [bumpStep_left_comm]
  | trans _ _ ih1 ih2 => intro b; rw [ih1 b, ih2 b]

theorem determine_perm {l l2 : List (List Char)} (h : l.Perm l2) :
    determine_bump_type l = determine_bump_type l2 := by
  unfold determine_bump_type
  cases l with
  | nil =>
    cases l2 with
    | nil => rfl
    | cons c t => exact absurd h.length_eq (by simp)
  | cons c t =>
    cases l2 with
    | nil => exact absurd h.length_eq (by simp)
    | cons c2 t2 =>
      simp only [List.isEmpty_cons, Bool.false_eq_true, if_false]
      exact foldl_bumpStep_perm h BumpType.none

theorem determine_dup (c : List Char) (l : List (List Char)) (h : c ∈ l) :
    determine_bump_type (c :: l) = determine_bump_type l := by
  obtain ⟨s, t, rfl⟩ := List.append_of_mem h
  have hp : (s ++ c :: t).Perm (c :: (s ++ t)) := List.perm_middle
  have h1 : determine_bump_type (c :: (s ++ c :: t))
      = determine_bump_type (c :: c :: (s ++ t)) := determine_perm (hp.cons c)
  have h2 : determine_bump_type (s ++ c :: t)
      = determine_bump_type (c :: (s ++ t)) := determine_perm hp
  rw [h1, h2]
  unfold determine_bump_type
  simp only [List.isEmpty_cons, Bool.false_eq_true, if_false, List.foldl_cons]
  rw [bumpStep_self]

theorem analyze_ne_none (m : List Char) :
    analyze_commit_message m ≠ BumpType.none := by
  unfold analyze_commit_message
  by_cases hb : (containsSub ("BREAKING CHANGE".data) (m.map Char.toUpper)
      || containsSub ("BREAKING-CHANGE".data) (m.map Char.toUpper)
      || matchBang m) = true
  · rw [if_pos hb]
    decide
  · rw [if_neg hb]
    cases hmh : matchHeader m with
    | none => simp only [hmh]; decide
    | some a =>
      simp only [hmh]
      by_cases hf : a.map Char.toLower = "feat".data
      · rw [if_pos hf]; decide
      · rw [if_neg hf]
        by_cases hp : a.map Char.toLower ∈ patchTypes
        · rw [if_pos hp]; decide
        · rw [if_neg hp]; decide

theorem bumpStep_sev_mono (b x : BumpType) :
    bumpSeverity b ≤ bumpSeverity (bumpStep b x) := by
  cases b <;> cases x <;> decide

theorem foldl_sev_ge (l : List (List Char)) :
    ∀ b, bumpSeverity b ≤ bumpSeverity
      (l.foldl (fun m c => bumpStep m (analyze_commit_message c)) b) := by
  induction l with
  | nil => intro b; exact le_refl _
  | cons c t ih =>
    intro b
    simp only [List.foldl_cons]
    exact le_trans (bumpStep_sev_mono b _) (ih _)

theorem bumpStep_none_ge (x : BumpType) (hx : x ≠ BumpType.none) :
    1 ≤ bumpSeverity (bumpStep BumpType.none x) := by
  cases x <;> first | decide | exact absurd rfl hx

/-!
Claim theorems C1-C5.
-/

/-- C1: any subject whose uppercased text contains `BREAKING CHANGE` or
`BREAKING-CHANGE`, or which matches the bang-header pattern
`^[A-Za-z]+(\([^)]*\))?!:`, is classified `major` — the breaking check
runs before the type check, so even a `feat` commit with a breaking
marker yields `major`, never `minor`. -/
theorem c1_breaking_precedence (m : List Char)
    (h : containsSub ("BREAKING CHANGE".data) (m.map Char.toUpper) = true
       ∨ containsSub ("BREAKING-CHANGE".data) (m.map Char.toUpper) = true
       ∨ matchBang m = true) :
    analyze_commit_message m = BumpType.major := by
  unfold analyze_commit_message
  rcases h with h | h | h <;> simp [h]

/-- Witness for C1 at a subject that carries both a `feat` type and a
breaking bang marker: the result is `major`. -/
theorem c1_breaking_precedence_witness :
    analyze_commit_message ("feat(api)!: remove legacy endpoint".data)
      = BumpType.major :=
  c1_breaking_precedence _ (Or.inr (Or.inr (by decide)))

/-- C2: the reduction step of `determine_bump_type` is commutative and
associative, the aggregate decision is invariant under permutation of
the commit list, and prepending a commit already in the list leaves
the decision unchanged (duplicates never raise the result). -/
theorem c2_aggregate_order_invariant :
    (∀ a b, bumpStep a b = bumpStep b a)
  ∧ (∀ a b c, bumpStep (bumpStep a b) c = bumpStep a (bumpStep b c))
  ∧ (∀ l l2 : List (List Char), l.Perm l2 →
      determine_bump_type l = determine_bump_type l2)
  ∧ (∀ (c : List Char) (l : List (List Char)), c ∈ l →
      determine_bump_type (c :: l) = determine_bump_type l) :=
  ⟨bumpStep_comm, bumpStep_assoc, fun _ _ h => determine_perm h, determine_dup⟩

/-- Witness for C2 at a concrete two-element permutation. -/
theorem c2_aggregate_order_invariant_witness :
    determine_bump_type ["feat: a".data, "fix: b".data]
      = determine_bump_type ["fix: b".data, "feat: a".data] :=
  c2_aggregate_order_invariant.2.2.1 _ _ (List.Perm.swap _ _ _)

/-- C3: bumping zeroes every lower-significance component and drops the
prerelease; bumping with `none` reproduces the version exactly,
prerelease included.  The hypothesis states that the prerelease is one
a parsed `SemanticVersion` can hold (absent, or nonempty over
`[a-zA-Z0-9.-]`), since `bump` re-parses the rendered string. -/
theorem c3_bump_arithmetic (v : SemanticVersion)
    (h : prereleaseWF v.prerelease = true) :
    bumpVersion v BumpType.major = some ⟨v.major + 1, 0, 0, none⟩
  ∧ bumpVersion v BumpType.minor = some ⟨v.major, v.minor + 1, 0, none⟩
  ∧ bumpVersion v BumpType.patch = some ⟨v.major, v.minor, v.patch + 1, none⟩
  ∧ bumpVersion v BumpType.none = some v := by
  refine ⟨?_, ?_, ?_, ?_⟩
  · have heq : bumpVersion v BumpType.major
        = parseVersion (renderVersionChars ⟨v.major + 1, 0, 0, none⟩) := rfl
    rw [heq]
    exact parseVersion_render _ rfl
  · have heq : bumpVersion v BumpType.minor
        = parseVersion (renderVersionChars ⟨v.major, v.minor + 1, 0, none⟩) := rfl
    rw [heq]
    exact parseVersion_render _ rfl
  · have heq : bumpVersion v BumpType.patch
        = parseVersion (renderVersionChars ⟨v.major, v.minor, v.patch + 1, none⟩) := by
      simp [bumpVersion, renderVersionChars]
    rw [heq]
    exact parseVersion_render _ rfl
  · exact parseVersion_render v h

/-- Witness for C3 at `1.2.3-rc.1`. -/
theorem c3_bump_arithmetic_witness :
    bumpVersion ⟨1, 2, 3, some "rc.1"⟩ BumpType.major = some ⟨2, 0, 0, none⟩
  ∧ bumpVersion ⟨1, 2, 3, some "rc.1"⟩ BumpType.none = some ⟨1, 2, 3, some "rc.1"⟩ := by
  have h := c3_bump_arithmetic ⟨1, 2, 3, some "rc.1"⟩ (by decide)
  exact ⟨h.1, h.2.2.2⟩

/-- C4: for every string the version grammar accepts, parsing, rendering
to the canonical string, and parsing again yields a structurally equal
value: `parse (toString (parse v)) = parse v`. -/
theorem c4_parse_roundtrip (s : String) (v : SemanticVersion)
    (h : parseVersionString s = some v) :
    parseVersionString (versionToString v) = some v := by
  have hwf := parseVersion_wf s.data v h
  have heq : parseVersionString (versionToString v)
      = parseVersion (renderVersionChars v) := rfl
  rw [heq]
  exact parseVersion_render v hwf

/-- Witness for C4 at `1.2.3-alpha.1`. -/
theorem c4_parse_roundtrip_witness :
    parseVersionString (versionToString ⟨1, 2, 3, some "alpha.1"⟩)
      = some ⟨1, 2, 3, some "alpha.1"⟩ :=
  c4_parse_roundtrip "1.2.3-alpha.1" _ (by decide)

/-- C5: the aggregate decision is `none` exactly on the empty commit
list; every nonempty list yields severity at least `patch`, because the
per-commit classifier never returns `none`. -/
theorem c5_none_iff_empty :
    (∀ m, analyze_commit_message m ≠ BumpType.none)
  ∧ (∀ l : List (List Char), determine_bump_type l = BumpType.none ↔ l = [])
  ∧ (∀ l : List (List Char), l ≠ [] →
      1 ≤ bumpSeverity (determine_bump_type l)) := by
  have hge : ∀ (c : List Char) (t : List (List Char)),
      1 ≤ bumpSeverity (determine_bump_type (c :: t)) := by
    intro c t
    unfold determine_bump_type
    simp only [List.isEmpty_cons, Bool.false_eq_true, if_false, List.foldl_cons]
    exact le_trans (bumpStep_none_ge _ (analyze_ne_none c)) (foldl_sev_ge t _)
  refine ⟨analyze_ne_none, ?_, ?_⟩
  · intro l
    constructor
    · intro h
      cases l with
      | nil => rfl
      | cons c t =>
        have h1 := hge c t
        rw [h] at h1
        simp [bumpSeverity] at h1
    · intro h
      subst h
      rfl
  · intro l hl
    cases l with
    | nil => exact absurd rfl hl
    | cons c t => exact hge c t

/-- Witness for C5 on a one-commit list. -/
theorem c5_none_iff_empty_witness :
    1 ≤ bumpSeverity (determine_bump_type ["fix: crash on save".data]) :=
  c5_none_iff_empty.2.2 _ (by decide)

/-!
Helper lemmas for the categorizer.
-/

/-- The bucket key chosen for a commit by the categorizer loop. -/
def commitKey (c : String × List Char) : List Char :=
  (parse_conventional_commit c.2).1

/-- The formatted description appended for a commit. -/
def commitMsg (c : String × List Char) : List Char :=
  (parse_conventional_commit c.2).2.1

/-- The breaking condition of line 85 for a commit. -/
def commitBrk (c : String × List Char) : Bool :=
  (parse_conventional_commit c.2).2.2 || containsSub ("BREAKING CHANGE".data) c.2

theorem processCommit_categorized (st : GenState) (c : String × List Char) :
    (processCommit st c).categorized
      = addToBucket st.categorized (commitKey c) (commitMsg c) := rfl

theorem processCommit_breaking (st : GenState) (c : String × List Char) :
    (processCommit st c).breaking
      = if commitBrk c then st.breaking ++ [commitMsg c] else st.breaking := rfl

theorem addToBucket_sizes (d : List (List Char × List (List Char))) (k v : List Char) :
    bucketSizes (addToBucket d k v) = bucketSizes d + 1 := by
  induction d with
  | nil => simp [addToBucket, bucketSizes]
  | cons kv t ih =>
    obtain ⟨k2, vs⟩ := kv
    by_cases hk : k2 = k
    · simp [addToBucket, hk, bucketSizes]
      omega
    · simp only [bucketSizes] at ih
      simp [addToBucket, hk, bucketSizes, ih]
      omega

theorem addToBucket_lookup (d : List (List Char × List (List Char))) (k v k2 : List Char) :
    lookupList (addToBucket d k v) k2
      = lookupList d k2 ++ (if k = k2 then [v] else []) := by
  induction d with
  | nil => by_cases h : k = k2 <;> simp [addToBucket, lookupList, h]
  | cons kv t ih =>
    obtain ⟨k3, vs⟩ := kv
    by_cases h3 : k3 = k
    · subst h3
      by_cases h2 : k3 = k2
      · subst h2
        simp [addToBucket, lookupList]
      · simp [addToBucket, lookupList, h2]
    · by_cases h2 : k3 = k2
      · subst h2
        have hne : ¬(k = k3) := fun he => h3 he.symm
        simp [addToBucket, h3, lookupList, hne]
      · simp [addToBucket, h3, lookupList, h2, ih]

theorem foldl_process_categorized :
    ∀ (commits : List (String × List Char)) (st : GenState),
      (commits.foldl processCommit st).categorized
        = commits.foldl
            (fun d c => addToBucket d (commitKey c) (commitMsg c)) st.categorized := by
  intro commits
  induction commits with
  | nil => intro st; rfl
  | cons c t ih =>
    intro st
    simp only [List.foldl_cons]
    rw [ih]
    rfl

theorem foldl_process_breaking :
    ∀ (commits : List (String × List Char)) (st : GenState),
      (commits.foldl processCommit st).breaking
        = st.breaking ++ commits.filterMap
            (fun c => if commitBrk c then some (commitMsg c) else none) := by
  intro commits
  induction commits with
  | nil => intro st; simp
  | cons c t ih =>
    intro st
    simp only [List.foldl_cons, List.filterMap_cons]
    rw [ih, processCommit_breaking]
    by_cases hb : commitBrk c = true
    · simp [hb]
    · simp only [Bool.not_eq_true] at hb
      simp [hb]

theorem lookup_catFold :
    ∀ (commits : List (String × List Char))
      (d : List (List Char × List (List Char))) (k : List Char),
      lookupList
          (commits.foldl (fun d2 c => addToBucket d2 (commitKey c) (commitMsg c)) d) k
        = lookupList d k ++
          lookupList
            (commits.foldl (fun d2 c => addToBucket d2 (commitKey c) (commitMsg c)) []) k := by
  intro commits
  induction commits with
  | nil => intro d k; simp [lookupList]
  | cons c t ih =>
    intro d k
    simp only [List.foldl_cons]
    rw [ih (addToBucket d (commitKey c) (commitMsg c)) k,
      ih (addToBucket [] (commitKey c) (commitMsg c)) k,
      addToBucket_lookup, addToBucket_lookup]
    simp [lookupList, List.append_assoc]

theorem bucketSizes_catFold :
    ∀ (commits : List (String × List Char)) (d : List (List Char × List (List Char))),
      bucketSizes
          (commits.foldl (fun d2 c => addToBucket d2 (commitKey c) (commitMsg c)) d)
        = bucketSizes d + commits.length := by
  intro commits
  induction commits with
  | nil => intro d; simp
  | cons c t ih =>
    intro d
    simp only [List.foldl_cons, List.length_cons]
    rw [ih, addToBucket_sizes]
    omega

theorem categorize_lookup (commits : List (String × List Char)) (st : GenState)
    (k : List Char) :
    lookupList (categorize_commits commits st).categorized k
      = lookupList st.categorized k
        ++ lookupList (categorize_commits commits initState).categorized k := by
  unfold categorize_commits
  rw [foldl_process_categorized, foldl_process_categorized]
  exact lookup_catFold commits st.categorized k

theorem categorize_breaking (commits : List (String × List Char)) (st : GenState) :
    (categorize_commits commits st).breaking
      = st.breaking ++ (categorize_commits commits initState).breaking := by
  unfold categorize_commits
  rw [foldl_process_breaking, foldl_process_breaking]
  simp [initState]

/-!
Claim theorems C6-C10.
-/

/-- C6 counterexample: `categorize_commits` does NOT lower-case the type
token and does NOT map unrecognized types to `other`: the commit
`Feat: x` lands in a bucket keyed `Feat` (the `feat` bucket stays
empty), and `foo: bar` lands in a bucket keyed `foo` (the `other`
bucket stays empty), contradicting the claimed lower-casing and
mapping into the fixed category enumeration. -/
theorem c6_lowercase_counterexample :
    (parse_conventional_commit ("Feat: x".data)).1 ≠ "feat".data
  ∧ lookupList (categorize_commits [("h1", "Feat: x".data)] initState).categorized
      ("feat".data) = []
  ∧ lookupList (categorize_commits [("h1", "Feat: x".data)] initState).categorized
      ("Feat".data) = ["x".data]
  ∧ lookupList (categorize_commits [("h2", "foo: bar".data)] initState).categorized
      ("other".data) = []
  ∧ lookupList (categorize_commits [("h2", "foo: bar".data)] initState).categorized
      ("foo".data) = ["bar".data] := by
  refine ⟨by decide, by decide, by decide, by decide, by decide⟩

/-- C6 amended: for a subject matching the header grammar the category
key is the group-1 type token verbatim — no lower-casing and no
mapping into a fixed enumeration — and `other` is used exactly for the
subjects that fail the grammar. -/
theorem c6_category_key_verbatim (msg : List Char) :
    (∀ ty sc bg d, notesMatch msg = some (ty, sc, bg, d) →
      (parse_conventional_commit msg).1 = ty)
  ∧ (notesMatch msg = none → (parse_conventional_commit msg).1 = "other".data) := by
  constructor
  · intro ty sc bg d h
    simp [parse_conventional_commit, h]
  · intro h
    simp [parse_conventional_commit, h]

/-- Witness for the amended C6 at the subject `Feat: x`. -/
theorem c6_category_key_verbatim_witness :
    (parse_conventional_commit ("Feat: x".data)).1 = "Feat".data :=
  (c6_category_key_verbatim ("Feat: x".data)).1 ("Feat".data) none false
    ("x".data) (by decide)

/-- C7: one run of the categorizer from a fresh generator assigns every
commit to exactly one bucket: the bucket sizes sum to the number of
input commits. -/
theorem c7_no_commit_dropped (commits : List (String × List Char)) :
    bucketSizes (categorize_commits commits initState).categorized
      = commits.length := by
  unfold categorize_commits
  rw [foldl_process_categorized, bucketSizes_catFold]
  simp [initState, bucketSizes]

/-- C8: a commit's formatted description is appended to the breaking
list exactly when the header bang flag is set or the raw subject
contains the case-sensitive substring `BREAKING CHANGE`; either way
the commit is also appended to its normal category bucket. -/
theorem c8_breaking_membership (st : GenState) (h : String) (msg : List Char) :
    ((processCommit st (h, msg)).breaking
        = st.breaking ++ [(parse_conventional_commit msg).2.1] ↔
      ((parse_conventional_commit msg).2.2 = true
        ∨ containsSub ("BREAKING CHANGE".data) msg = true))
  ∧ ((processCommit st (h, msg)).breaking = st.breaking ↔
      ¬((parse_conventional_commit msg).2.2 = true
        ∨ containsSub ("BREAKING CHANGE".data) msg = true))
  ∧ lookupList (processCommit st (h, msg)).categorized
        (parse_conventional_commit msg).1
      = lookupList st.categorized (parse_conventional_commit msg).1
        ++ [(parse_conventional_commit msg).2.1] := by
  have hcond : commitBrk (h, msg) = true ↔
      ((parse_conventional_commit msg).2.2 = true
        ∨ containsSub ("BREAKING CHANGE".data) msg = true) := by
    simp [commitBrk]
  refine ⟨?_, ?_, ?_⟩
  · rw [processCommit_breaking]
    by_cases hb : commitBrk (h, msg) = true
    · rw [if_pos hb]
      exact iff_of_true rfl (hcond.mp hb)
    · rw [if_neg hb]
      apply iff_of_false
      · intro heq
        have hlen := congrArg List.length heq
        simp at hlen
      · exact fun hd => hb (hcond.mpr hd)
  · rw [processCommit_breaking]
    by_cases hb : commitBrk (h, msg) = true
    · rw [if_pos hb]
      apply iff_of_false
      · intro heq
        have hlen := congrArg List.length heq
        simp at hlen
      · exact fun hnd => hnd (hcond.mp hb)
    · rw [if_neg hb]
      exact iff_of_true rfl (fun hd => hb (hcond.mpr hd))
  · rw [processCommit_categorized, addToBucket_lookup]
    simp [commitKey, commitMsg]

/-- C9 counterexample: the header `feat!: remove legacy endpoint`
matches the notes grammar (with the bang flag) but fails the bump
script's header regex, so the two grammars do not accept the same set
of headers.  The bump pipeline still classifies the subject `major`
through its separate breaking-bang regex. -/
theorem c9_grammar_counterexample :
    matchHeader ("feat!: remove legacy endpoint".data) = none
  ∧ notesMatch ("feat!: remove legacy endpoint".data)
      = some ("feat".data, none, true, "remove legacy endpoint".data)
  ∧ analyze_commit_message ("feat!: remove legacy endpoint".data)
      = BumpType.major := by
  refine ⟨by decide, by decide, by decide⟩

theorem matchHeader_notesMatch_agree (m : List Char) (ty : List Char) :
    matchHeader m = some ty ↔ ∃ sc d, notesMatch m = some (ty, sc, false, d) := by
  by_cases ha : ((m.takeWhile Char.isAlpha).isEmpty : Bool)
  · simp [matchHeader, notesMatch, ha]
  · cases hr : m.dropWhile Char.isAlpha with
    | nil => simp [matchHeader, notesMatch, ha, hr]
    | cons c r2 =>
      by_cases hc1 : c = '('
      · subst hc1
        cases hd : r2.dropWhile (fun x => x != ')') with
        | nil => simp [matchHeader, notesMatch, ha, hr, hd]
        | cons c2 rest2 =>
          by_cases hc2 : c2 = ')'
          · subst hc2
            cases rest2 with
            | nil => simp [matchHeader, notesMatch, ha, hr, hd]
            | cons c3 rest3 =>
              by_cases hc3 : c3 = ':'
              · subst hc3
                simp [matchHeader, notesMatch, ha, hr, hd, eq_comm]
              · by_cases hc4 : c3 = '!'
                · subst hc4
                  cases rest3 with
                  | nil => simp [matchHeader, notesMatch, ha, hr, hd, hc3]
                  | cons c4 rest4 =>
                    by_cases hc5 : c4 = ':'
                    · subst hc5
                      simp [matchHeader, notesMatch, ha, hr, hd, hc3]
                    · simp [matchHeader, notesMatch, ha, hr, hd, hc3, hc5]
                · simp [matchHeader, notesMatch, ha, hr, hd, hc3, hc4]
          · cases rest2 with
            | nil => simp [matchHeader, notesMatch, ha, hr, hd, hc2]
            | cons c3 rest3 => simp [matchHeader, notesMatch, ha, hr, hd, hc2]
      · by_cases hc2 : c = ':'
        · subst hc2
          simp [matchHeader, notesMatch, ha, hr, hc1, eq_comm]
        · by_cases hc3 : c = '!'
          · subst hc3
            cases r2 with
            | nil => simp [matchHeader, notesMatch, ha, hr, hc1, hc2]
            | cons c2 rest2 =>
              by_cases hc4 : c2 = ':'
              · subst hc4
                simp [matchHeader, notesMatch, ha, hr, hc1, hc2]
              · simp [matchHeader, notesMatch, ha, hr, hc1, hc2, hc4]
          · simp [matchHeader, notesMatch, ha, hr, hc1, hc2, hc3]

/-- C9 amended: the two header grammars agree exactly on headers
without a breaking bang: the bump header regex accepts a subject iff
the notes regex accepts it with the bang flag unset, and whenever both
accept, the extracted type tokens are identical (hence equal after
lower-casing). -/
theorem c9_shared_grammar_amended (m : List Char) :
    (∀ ty, matchHeader m = some ty ↔
      ∃ sc d, notesMatch m = some (ty, sc, false, d))
  ∧ (∀ ty ty2 sc bg d, matchHeader m = some ty →
      notesMatch m = some (ty2, sc, bg, d) → ty = ty2 ∧ bg = false) := by
  refine ⟨fun ty => matchHeader_notesMatch_agree m ty, ?_⟩
  intro ty ty2 sc bg d h1 h2
  obtain ⟨sc3, d3, h3⟩ := (matchHeader_notesMatch_agree m ty).mp h1
  rw [h2] at h3
  simp only [Option.some.injEq, Prod.mk.injEq] at h3
  exact ⟨h3.1.symm, h3.2.2.1⟩

/-- Witness for the amended C9 at `feat: add login`. -/
theorem c9_shared_grammar_amended_witness :
    ∃ sc d, notesMatch ("feat: add login".data)
      = some ("feat".data, sc, false, d) :=
  ((c9_shared_grammar_amended ("feat: add login".data)).1 ("feat".data)).mp
    (by decide)

theorem iter_lookup_succ (commits : List (String × List Char)) (n : Nat)
    (k : List Char) :
    lookupList (iterMarkdown commits (n + 1)).categorized k
      = lookupList (iterMarkdown commits n).categorized k
        ++ lookupList (iterMarkdown commits 1).categorized k := by
  have h1 : iterMarkdown commits 1 = categorize_commits commits initState := rfl
  rw [h1]
  exact categorize_lookup commits (iterMarkdown commits n) k

theorem iter_breaking_succ (commits : List (String × List Char)) (n : Nat) :
    (iterMarkdown commits (n + 1)).breaking
      = (iterMarkdown commits n).breaking ++ (iterMarkdown commits 1).breaking := by
  have h1 : iterMarkdown commits 1 = categorize_commits commits initState := rfl
  rw [h1]
  exact categorize_breaking commits (iterMarkdown commits n)

/-- C10: the categorizer state accumulates across `generate_markdown`
calls — each call appends a fresh copy of the single-call buckets and
breaking list, so after `n` calls every bucket and the breaking list
are `n` times their single-call size; rendering is not idempotent on
the generator state. -/
theorem c10_state_accumulates (commits : List (String × List Char)) (n : Nat)
    (k : List Char) :
    (lookupList (iterMarkdown commits (n + 1)).categorized k
       = lookupList (iterMarkdown commits n).categorized k
         ++ lookupList (iterMarkdown commits 1).categorized k)
  ∧ ((iterMarkdown commits (n + 1)).breaking
       = (iterMarkdown commits n).breaking ++ (iterMarkdown commits 1).breaking)
  ∧ (lookupList (iterMarkdown commits n).categorized k).length
       = n * (lookupList (iterMarkdown commits 1).categorized k).length
  ∧ (iterMarkdown commits n).breaking.length
       = n * (iterMarkdown commits 1).breaking.length := by
  refine ⟨iter_lookup_succ commits n k, iter_breaking_succ commits n, ?_⟩
  induction n with
  | zero => simp [iterMarkdown, initState, lookupList]
  | succ n ih =>
    constructor
    · rw [iter_lookup_succ commits n k, List.length_append, ih.1]
      ring
    · rw [iter_breaking_succ commits n, List.length_append, ih.2]
      ring

example : parse_conventional_commit ("feat(api)!: remove legacy endpoint".data)
    = ("feat".data, "api: remove legacy endpoint".data, true) := by decide
example : parse_conventional_commit ("unrelated message".data)
    = ("other".data, "unrelated message".data, false) := by decide
example : parse_conventional_commit ("Feat: x".data)
    = ("Feat".data, "x".data, false) := by decide
example : parse_conventional_commit ("feat(): x".data)
    = ("feat".data, ": x".data, false) := by decide
example : parse_conventional_commit ("docs:   spaced   out".data)
    = ("docs".data, "spaced   out".data, false) := by decide
example :
    (categorize_commits [("h1", "feat(api)!: remove legacy endpoint".data)] initState).breaking
      = ["api: remove legacy endpoint".data] := by decide
example :
    bucketSizes (categorize_commits
      [("a", "docs: fix typo".data), ("b", "unrelated message with no header".data)]
      initState).categorized = 2 := by decide

example : analyze_commit_message ("feat: add login".data) = BumpType.minor := by decide
example : analyze_commit_message ("feat(api)!: remove legacy endpoint".data) = BumpType.major := by decide
example : analyze_commit_message ("fix: crash".data) = BumpType.patch := by decide
example : analyze_commit_message ("whatever".data) = BumpType.patch := by decide
example : analyze_commit_message ("does breaking-change stuff".data) = BumpType.major := by decide
example : determine_bump_type [] = BumpType.none := by decide
example : determine_bump_type ["feat: a".data, "fix: b".data] = BumpType.minor := by decide
example : matchHeader ("feat!: x".data) = none := by decide
